import Mathlib

/-!
Shallow embedding of the persistence core of Promptonauts/Pipe
(`pkg/store/sqlite.go`, `pkg/store/store.go`, `pkg/models`).

The SQLite tables are modelled as in-memory lists of rows; each store
operation is a pure function from the store state (and the values the Go
code obtains from its environment: the current time `time.Now().UTC()`,
modelled as a `Nat`, and the fresh uuid `uuid.New().String()`, passed in
as a `String` argument) to the new state and the operation's result.
Byte slices (`[]byte`) are modelled as `Option (List Nat)`: `none` is Go's
nil slice, stored as SQL `NULL`; `some bs` a non-nil slice stored as a blob.
I/O and serialization failures of the environment are outside the model;
`NotFound` and the executions primary-key constraint are the error outcomes
the code itself decides.
-/

namespace Pipe

/-- Modelled from the spec: the resource status shape of §3 (`ResourceStatus`);
the Go file defining `models.GenericResource` and its metadata/status structs
is not among the repository files, only `sqlite.go` uses them. -/
structure ResourceStatus where
  state : String
  health : String
  lastUpdated : Nat
deriving DecidableEq, Repr

/-- Modelled from the spec: the resource metadata of §3,
`{namespace, name, uid, createdAt, updatedAt}`. -/
structure ResourceMeta where
  «namespace» : String
  name : String
  uid : String
  createdAt : Nat
  updatedAt : Nat
deriving DecidableEq, Repr

/-- Modelled from the spec: `GenericResource` of §3 — kind, metadata, an
opaque spec payload and a status. -/
structure GenericResource where
  kind : String
  metadata : ResourceMeta
  spec : String
  status : ResourceStatus
deriving DecidableEq, Repr

/-- `store.EventType` with its three constants (store.go). -/
inductive EventType where
  | CREATED
  | UPDATED
  | DELETED
deriving DecidableEq, Repr

/-- `store.ResourceEvent` (store.go). -/
structure ResourceEvent where
  type : EventType
  resource : GenericResource
deriving DecidableEq, Repr

/-- `models.ExecutionLog` (pkg/models). -/
structure ExecutionLog where
  timestamp : Nat
  level : String
  message : String
  step : Int
deriving DecidableEq, Repr

/-- `models.ExecutionRecord` (pkg/models). The `output` payload is opaque to
the store and modelled as an optional string; times are `Nat`. -/
structure ExecutionRecord where
  id : String
  agentName : String
  pipelineName : String
  «namespace» : String
  state : String
  input : List (String × String)
  output : Option String
  currentStep : Int
  totalSteps : Int
  checkpoint : Option (List Nat)
  retryCount : Int
  maxRetries : Int
  priority : Int
  error : String
  logs : List ExecutionLog
  tokensUsed : Int
  latencyMs : Int
  createdAt : Nat
  updatedAt : Nat
  startedAt : Option Nat
  completedAt : Option Nat
deriving DecidableEq, Repr

/-- A row of the `resources` table: columns as in `Migrate`'s schema; `data`
is the serialized resource (serialization is modelled as the identity). -/
structure ResourceRow where
  kind : String
  «namespace» : String
  name : String
  uid : String
  data : GenericResource
  created_at : Nat
  updated_at : Nat
deriving DecidableEq, Repr

/-- A row of the `executions` table: columns as in `Migrate`'s schema. The
`checkpoint` column is `none` when SQL NULL. -/
structure ExecRow where
  id : String
  «namespace» : String
  agent_name : String
  pipeline_name : String
  state : String
  data : ExecutionRecord
  checkpoint : Option (List Nat)
  created_at : Nat
  updated_at : Nat
deriving DecidableEq, Repr

/-- A watch subscriber: the Go code's `chan ResourceEvent` of capacity 100,
registered for one kind, modelled as a bounded queue. -/
structure Subscriber where
  kind : String
  cap : Nat
  queue : List ResourceEvent
deriving DecidableEq, Repr

/-- The errors the store's own logic decides (environment I/O failures are
outside the model): `NotFound` for an absent key, and the `executions`
primary-key violation `CreateExecution` can hit. -/
inductive StoreError where
  | notFound
  | constraintViolation
deriving DecidableEq, Repr

/-- `store.SQLiteStore`: the two tables the claims touch and the watcher
list (the `execution_logs` table is not needed by any claim). -/
structure SQLiteStore where
  resources : List ResourceRow
  executions : List ExecRow
  watchers : List Subscriber
deriving DecidableEq, Repr

/-- `NewSQLiteStore` on a fresh database file after `Migrate`: empty tables,
no watchers. -/
def NewSQLiteStore : SQLiteStore :=
  { resources := [], executions := [], watchers := [] }

instance {ε α : Type} [DecidableEq ε] [DecidableEq α] : DecidableEq (Except ε α) :=
  fun a b =>
    match a, b with
    | .ok x, .ok y => decidable_of_iff (x = y) (by simp)
    | .error e, .error f => decidable_of_iff (e = f) (by simp)
    | .ok _, .error _ => isFalse (by simp)
    | .error _, .ok _ => isFalse (by simp)

/-- Does a `resources` row have primary key `(kind, namespace, name)`? -/
def ResourceRow.hasKey (row : ResourceRow) (kind nsp name : String) : Bool :=
  row.kind == kind && row.«namespace» == nsp && row.name == name

/-- The `(kind, namespace, name)` key of a resource. -/
def GenericResource.key (r : GenericResource) : String × String × String :=
  (r.kind, r.metadata.«namespace», r.metadata.name)

/-- One non-blocking channel send (`select { case ch <- event: default: }`):
the event is appended when the subscriber is registered for the kind and its
queue has room, and silently dropped otherwise. -/
def emitOne (kind : String) (event : ResourceEvent) (sub : Subscriber) : Subscriber :=
  if sub.kind = kind ∧ sub.queue.length < sub.cap then
    { sub with queue := sub.queue ++ [event] }
  else
    sub

/-- `SQLiteStore.emit`: loop over the kind's subscribers, non-blocking send
to each. (Subscribers of other kinds are untouched, as in the Go map
`s.watchers[kind]`.) -/
def emit (watchers : List Subscriber) (kind : String) (event : ResourceEvent) :
    List Subscriber :=
  watchers.map (emitOne kind event)

/-- `SQLiteStore.Watch`: registers a fresh capacity-100 channel for the kind
and returns it. -/
def SQLiteStore.Watch (s : SQLiteStore) (kind : String) : SQLiteStore × Subscriber :=
  let ch : Subscriber := { kind := kind, cap := 100, queue := [] }
  ({ s with watchers := s.watchers ++ [ch] }, ch)

/-- The in-place mutations `Put` performs on the resource before writing
(sqlite.go lines 87–101): assign `uid`/`createdAt` when the uid is empty,
always re-stamp `updatedAt`, default an empty status, always re-stamp
`status.lastUpdated`. -/
def stampPut (now : Nat) (freshUid : String) (resource : GenericResource) :
    GenericResource :=
  let resource :=
    if resource.metadata.uid = "" then
      { resource with metadata :=
          { resource.metadata with uid := freshUid, createdAt := now } }
    else resource
  let resource := { resource with metadata := { resource.metadata with updatedAt := now } }
  let resource :=
    if resource.status.state = "" then
      { resource with status :=
          { resource.status with state := "Registered", health := "Unknown" } }
    else resource
  { resource with status := { resource.status with lastUpdated := now } }

/-- The SQL upsert of `Put` (sqlite.go lines 108–115): insert a fresh row,
or on a `(kind, namespace, name)` conflict overwrite only the `data` and
`updated_at` columns — `uid` and `created_at` keep the row's old values. -/
def upsertRow (rs : List ResourceRow) (now : Nat) (r : GenericResource) :
    List ResourceRow :=
  if rs.any (fun row => row.hasKey r.kind r.metadata.«namespace» r.metadata.name) then
    rs.map fun row =>
      if row.hasKey r.kind r.metadata.«namespace» r.metadata.name then
        { row with data := r, updated_at := now }
      else row
  else
    rs ++
      [{ kind := r.kind, «namespace» := r.metadata.«namespace»,
         name := r.metadata.name, uid := r.metadata.uid,
         data := r, created_at := now, updated_at := now }]

/-- `SQLiteStore.Put` (sqlite.go lines 83–126). `now` is `time.Now().UTC()`,
`freshUid` the value `uuid.New().String()` would produce. Returns the new
state, the resource as mutated in place by the Go code, and the emitted
event (`CREATED` when the incoming uid was empty, `UPDATED` otherwise). -/
def SQLiteStore.Put (s : SQLiteStore) (now : Nat) (freshUid : String)
    (resource : GenericResource) : SQLiteStore × GenericResource × ResourceEvent :=
  let isNew := resource.metadata.uid = ""
  let resource := stampPut now freshUid resource
  let evtType := if isNew then EventType.CREATED else EventType.UPDATED
  let event : ResourceEvent := { type := evtType, resource := resource }
  ({ s with resources := upsertRow s.resources now resource,
            watchers := emit s.watchers resource.kind event },
   resource, event)

/-- `SQLiteStore.Get` (sqlite.go lines 128–149): point lookup by key,
`NotFound` when the row is absent. -/
def SQLiteStore.Get (s : SQLiteStore) (kind nsp name : String) :
    Except StoreError GenericResource :=
  match s.resources.find? (fun row => row.hasKey kind nsp name) with
  | some row => .ok row.data
  | none => .error .notFound

/-- `SQLiteStore.getUnlocked` (sqlite.go lines 214–231): same lookup as
`Get`, used by `Delete` under the already-held write lock. -/
def SQLiteStore.getUnlocked (s : SQLiteStore) (kind nsp name : String) :
    Except StoreError GenericResource :=
  match s.resources.find? (fun row => row.hasKey kind nsp name) with
  | some row => .ok row.data
  | none => .error .notFound

/-- `SQLiteStore.Delete` (sqlite.go lines 183–202): loads the resource (a
`NotFound` there is returned before anything is deleted or emitted), deletes
the row and emits a `DELETED` event carrying the pre-deletion resource. -/
def SQLiteStore.Delete (s : SQLiteStore) (kind nsp name : String) :
    SQLiteStore × Except StoreError Unit :=
  match s.getUnlocked kind nsp name with
  | .error e => (s, .error e)
  | .ok res =>
    ({ s with
        resources := s.resources.filter fun row => ! row.hasKey kind nsp name,
        watchers := emit s.watchers kind { type := .DELETED, resource := res } },
     .ok ())

/-- `SQLiteStore.CreateExecution` (sqlite.go lines 233–254): assigns an id
when absent, stamps `createdAt`/`updatedAt`, inserts a row with a NULL
checkpoint. The plain `INSERT` fails on a duplicate primary key. Returns the
record as mutated in place. -/
def SQLiteStore.CreateExecution (s : SQLiteStore) (now : Nat) (freshId : String)
    (exec : ExecutionRecord) : SQLiteStore × Except StoreError ExecutionRecord :=
  let exec := if exec.id = "" then { exec with id := freshId } else exec
  let exec := { exec with createdAt := now, updatedAt := now }
  if s.executions.any (fun row => row.id == exec.id) then
    (s, .error .constraintViolation)
  else
    ({ s with executions := s.executions ++
        [{ id := exec.id, «namespace» := exec.«namespace», agent_name := exec.agentName,
           pipeline_name := exec.pipelineName, state := exec.state, data := exec,
           checkpoint := none, created_at := now, updated_at := now }] },
     .ok exec)

/-- `SQLiteStore.GetExecution` (sqlite.go lines 256–274). -/
def SQLiteStore.GetExecution (s : SQLiteStore) (id : String) :
    Except StoreError ExecutionRecord :=
  match s.executions.find? (fun row => row.id == id) with
  | some row => .ok row.data
  | none => .error .notFound

/-- `SQLiteStore.UpdateExecution` (sqlite.go lines 276–290): re-stamps
`updatedAt` and issues `UPDATE executions SET state, data, updated_at WHERE
id = ?`. An UPDATE matching zero rows is not an error in SQL, so the call
succeeds and changes nothing when the id has no row. -/
def SQLiteStore.UpdateExecution (s : SQLiteStore) (now : Nat)
    (exec : ExecutionRecord) : SQLiteStore × Except StoreError ExecutionRecord :=
  let exec := { exec with updatedAt := now }
  ({ s with executions := s.executions.map fun row =>
      if row.id == exec.id then
        { row with state := exec.state, data := exec, updated_at := now }
      else row },
   .ok exec)

/-- The comparison `ORDER BY created_at DESC` sorts by: `a` before `b` when
`a`'s creation time is the later one. -/
def execRowGE (a b : ExecRow) : Prop := b.created_at ≤ a.created_at

instance : DecidableRel execRowGE := fun a b => Nat.decLe b.created_at a.created_at

instance : IsTotal ExecRow execRowGE :=
  ⟨fun a b => Nat.le_total b.created_at a.created_at⟩

instance : IsTrans ExecRow execRowGE :=
  ⟨fun _ _ _ h1 h2 => Nat.le_trans h2 h1⟩

/-- The rows `SELECT data FROM executions [WHERE namespace = ?] ORDER BY
created_at DESC [LIMIT ?]` yields, for `SQLiteStore.ListExecutions`
(sqlite.go lines 292–327). SQLite fixes no order between rows with equal
`created_at`; the model picks a stable sort, which agrees with SQLite on any
input with pairwise-distinct creation times. -/
def SQLiteStore.listExecutionRows (s : SQLiteStore) (nsp : String) (limit : Int) :
    List ExecRow :=
  let rows := if nsp = "" then s.executions
              else s.executions.filter fun row => row.«namespace» == nsp
  let sorted := List.insertionSort execRowGE rows
  if 0 < limit then sorted.take limit.toNat else sorted

/-- `SQLiteStore.ListExecutions`: the selected rows' `data` payloads. -/
def SQLiteStore.ListExecutions (s : SQLiteStore) (nsp : String) (limit : Int) :
    List ExecutionRecord :=
  (s.listExecutionRows nsp limit).map fun row => row.data

/-- `SQLiteStore.SaveCheckpoint` (sqlite.go lines 364–371): `UPDATE
executions SET checkpoint = ?, updated_at = ? WHERE id = ?`. Affecting zero
rows is not an error. -/
def SQLiteStore.SaveCheckpoint (s : SQLiteStore) (now : Nat) (executionID : String)
    (data : Option (List Nat)) : SQLiteStore × Except StoreError Unit :=
  ({ s with executions := s.executions.map fun row =>
      if row.id == executionID then
        { row with checkpoint := data, updated_at := now }
      else row },
   .ok ())

/-- `SQLiteStore.LoadCheckpoint` (sqlite.go lines 373–383): `sql.ErrNoRows`
is mapped to `(nil, nil)`, i.e. a nil slice and no error; a NULL checkpoint
column scans to a nil slice as well. -/
def SQLiteStore.LoadCheckpoint (s : SQLiteStore) (executionID : String) :
    Except StoreError (Option (List Nat)) :=
  match s.executions.find? (fun row => row.id == executionID) with
  | none => .ok none
  | some row => .ok row.checkpoint

/-- A sequence of `Put` calls: each entry is (now, freshUid, resource). -/
def putSeq (s : SQLiteStore) : List (Nat × String × GenericResource) → SQLiteStore
  | [] => s
  | (now, u, r) :: rest => putSeq (s.Put now u r).1 rest

/-- The uid a `Get` at the key observes, `none` when the key is absent. -/
def uidAt (s : SQLiteStore) (kind nsp name : String) : Option String :=
  match s.Get kind nsp name with
  | .ok r => some r.metadata.uid
  | .error _ => none

/-- A sample execution record used to instantiate theorems at concrete inputs. -/
def execRecA : ExecutionRecord :=
  { id := "e1", agentName := "summarizer", pipelineName := "", «namespace» := "default",
    state := "Pending", input := [], output := none, currentStep := 0, totalSteps := 1,
    checkpoint := none, retryCount := 0, maxRetries := 3, priority := 0, error := "",
    logs := [], tokensUsed := 0, latencyMs := 0, createdAt := 0, updatedAt := 0,
    startedAt := none, completedAt := none }

/-- A sample store holding one execution row for record `execRecA`. -/
def storeA : SQLiteStore :=
  { resources := [], executions :=
      [{ id := "e1", «namespace» := "default", agent_name := "summarizer",
         pipeline_name := "", state := "Pending", data := execRecA,
         checkpoint := none, created_at := 1, updated_at := 1 }],
    watchers := [] }

/-! ## General lookup lemmas -/

/-- `find?` through a map that rewrites exactly the rows matching the
predicate, without changing whether they match. -/
theorem find?_map_ite {α : Type} (p : α → Bool) (f : α → α)
    (hf : ∀ x, p (f x) = p x) :
    ∀ l : List α, (l.map fun x => if p x then f x else x).find? p = (l.find? p).map f := by
  intro l
  induction l with
  | nil => rfl
  | cons a l ih =>
    by_cases h : p a = true
    · simp [List.find?_cons, h, hf]
    · simp only [Bool.not_eq_true] at h
      simp [List.find?_cons, h, ih]

/-- Rows kept by a `SaveCheckpoint`-style conditional update have the same
ids as before. -/
theorem exists_id_map_ite (l : List ExecRow) (f : ExecRow → ExecRow)
    (hf : ∀ x, (f x).id = x.id) (p : ExecRow → Bool) (id' : String) :
    (∃ row ∈ l.map fun x => if p x then f x else x, row.id = id') ↔
      ∃ row ∈ l, row.id = id' := by
  simp only [List.mem_map]
  constructor
  · rintro ⟨row, ⟨x, hx, rfl⟩, hid⟩
    refine ⟨x, hx, ?_⟩
    by_cases h : p x = true <;> simp [h, hf] at hid ⊢ <;> exact hid
  · rintro ⟨x, hx, hid⟩
    refine ⟨if p x then f x else x, ⟨x, hx, rfl⟩, ?_⟩
    by_cases h : p x = true <;> simp [h, hf, hid]

/-! ## Checkpoint lemmas (sqlite.go lines 364–383) -/

/-- After a `SaveCheckpoint` on an id that has a row, `LoadCheckpoint`
returns exactly the saved blob. -/
theorem LoadCheckpoint_SaveCheckpoint (s : SQLiteStore) (now : Nat) (id : String)
    (b : Option (List Nat)) (hpres : ∃ row ∈ s.executions, row.id = id) :
    (s.SaveCheckpoint now id b).1.LoadCheckpoint id = .ok b := by
  unfold SQLiteStore.SaveCheckpoint SQLiteStore.LoadCheckpoint
  dsimp only
  have hrw := find?_map_ite (fun row : ExecRow => row.id == id)
    (fun row : ExecRow => { row with checkpoint := b, updated_at := now })
    (fun _ => rfl) s.executions
  rw [hrw]
  obtain ⟨row, hmem, hid⟩ := hpres
  have hsome : (s.executions.find? fun row => row.id == id).isSome := by
    rw [List.find?_isSome]
    exact ⟨row, hmem, by simp [hid]⟩
  obtain ⟨row', hrow'⟩ := Option.isSome_iff_exists.mp hsome
  rw [hrow']
  rfl

/-- `SaveCheckpoint` neither adds nor removes execution rows for any id. -/
theorem SaveCheckpoint_ids (s : SQLiteStore) (now : Nat) (id id' : String)
    (b : Option (List Nat)) :
    (∃ row ∈ (s.SaveCheckpoint now id b).1.executions, row.id = id') ↔
      ∃ row ∈ s.executions, row.id = id' := by
  unfold SQLiteStore.SaveCheckpoint
  dsimp only
  exact exists_id_map_ite s.executions
    (fun row : ExecRow => { row with checkpoint := b, updated_at := now })
    (fun _ => rfl) (fun row : ExecRow => row.id == id) id'

/-- C4: for an execution id present in the store, `SaveCheckpoint(id, bytes)`
followed by `LoadCheckpoint(id)` returns exactly `bytes`, and a second
`SaveCheckpoint` replaces the first (last write wins). -/
theorem checkpoint_roundtrip (s : SQLiteStore) (id : String)
    (b b1 b2 : Option (List Nat)) (n1 n2 : Nat)
    (hpres : ∃ row ∈ s.executions, row.id = id) :
    (s.SaveCheckpoint n1 id b).1.LoadCheckpoint id = .ok b ∧
    ((s.SaveCheckpoint n1 id b1).1.SaveCheckpoint n2 id b2).1.LoadCheckpoint id = .ok b2 := by
  refine ⟨LoadCheckpoint_SaveCheckpoint s n1 id b hpres, ?_⟩
  exact LoadCheckpoint_SaveCheckpoint _ n2 id b2 ((SaveCheckpoint_ids s n1 id id b1).mpr hpres)

/-- C4 witness: the theorem at a concrete store, id and blobs. -/
theorem checkpoint_roundtrip_wit :
    (storeA.SaveCheckpoint 5 "e1" (some [1, 2])).1.LoadCheckpoint "e1" = .ok (some [1, 2]) ∧
    ((storeA.SaveCheckpoint 5 "e1" (some [9])).1.SaveCheckpoint 6 "e1"
        (some [1, 2])).1.LoadCheckpoint "e1" = .ok (some [1, 2]) :=
  checkpoint_roundtrip storeA "e1" (some [1, 2]) (some [9]) (some [1, 2]) 5 6 (by decide)

/-- C5: a successfully created execution that has never checkpointed loads
the explicit absent checkpoint (`none`) with no error; that result differs
from any read failure and from a present-but-empty blob (`some []`). -/
theorem load_checkpoint_never_saved (s : SQLiteStore) (now now2 : Nat) (fid : String)
    (e : ExecutionRecord) (hid : e.id ≠ "")
    (hfresh : ∀ row ∈ s.executions, row.id ≠ e.id) :
    (s.CreateExecution now fid e).2 = .ok { e with createdAt := now, updatedAt := now } ∧
    (s.CreateExecution now fid e).1.LoadCheckpoint e.id = .ok none ∧
    ((s.CreateExecution now fid e).1.SaveCheckpoint now2 e.id
        (some [])).1.LoadCheckpoint e.id = .ok (some []) ∧
    (∀ err : StoreError, (s.CreateExecution now fid e).1.LoadCheckpoint e.id ≠ .error err) ∧
    (s.CreateExecution now fid e).1.LoadCheckpoint e.id ≠
      ((s.CreateExecution now fid e).1.SaveCheckpoint now2 e.id
        (some [])).1.LoadCheckpoint e.id := by
  have hany : (s.executions.any fun row => row.id == e.id) = false := by
    rw [List.any_eq_false]
    intro row hrow
    simp [hfresh row hrow]
  have hcreate : s.CreateExecution now fid e =
      ({ s with executions := s.executions ++
          [{ id := e.id, «namespace» := e.«namespace», agent_name := e.agentName,
             pipeline_name := e.pipelineName, state := e.state,
             data := { e with createdAt := now, updatedAt := now },
             checkpoint := none, created_at := now, updated_at := now }] },
       .ok { e with createdAt := now, updatedAt := now }) := by
    unfold SQLiteStore.CreateExecution
    simp [hid, hany]
  have hfind : ((s.CreateExecution now fid e).1.executions.find?
      fun row => row.id == e.id) = some
      { id := e.id, «namespace» := e.«namespace», agent_name := e.agentName,
        pipeline_name := e.pipelineName, state := e.state,
        data := { e with createdAt := now, updatedAt := now },
        checkpoint := none, created_at := now, updated_at := now } := by
    rw [hcreate]
    dsimp only
    rw [List.find?_append]
    have hnone : (s.executions.find? fun row => row.id == e.id) = none := by
      rw [List.find?_eq_none]
      intro row hrow
      simp [hfresh row hrow]
    rw [hnone]
    simp [List.find?_cons]
  have hload : (s.CreateExecution now fid e).1.LoadCheckpoint e.id = .ok none := by
    unfold SQLiteStore.LoadCheckpoint
    rw [hfind]
  have hpres : ∃ row ∈ (s.CreateExecution now fid e).1.executions, row.id = e.id := by
    refine ⟨_, List.mem_of_find?_eq_some hfind, rfl⟩
  have hsaved := LoadCheckpoint_SaveCheckpoint
    (s.CreateExecution now fid e).1 now2 e.id (some []) hpres
  refine ⟨by rw [hcreate], hload, hsaved, ?_, ?_⟩
  · intro err h
    rw [hload] at h
    cases h
  · rw [hload, hsaved]
    simp

/-- C5 witness: the theorem on the empty store and the sample record. -/
theorem load_checkpoint_never_saved_wit :
    (NewSQLiteStore.CreateExecution 3 "gen" execRecA).2 =
      .ok { execRecA with createdAt := 3, updatedAt := 3 } ∧
    (NewSQLiteStore.CreateExecution 3 "gen" execRecA).1.LoadCheckpoint execRecA.id = .ok none ∧
    ((NewSQLiteStore.CreateExecution 3 "gen" execRecA).1.SaveCheckpoint 4 execRecA.id
        (some [])).1.LoadCheckpoint execRecA.id = .ok (some []) ∧
    (∀ err : StoreError,
      (NewSQLiteStore.CreateExecution 3 "gen" execRecA).1.LoadCheckpoint execRecA.id ≠
        .error err) ∧
    (NewSQLiteStore.CreateExecution 3 "gen" execRecA).1.LoadCheckpoint execRecA.id ≠
      ((NewSQLiteStore.CreateExecution 3 "gen" execRecA).1.SaveCheckpoint 4 execRecA.id
        (some [])).1.LoadCheckpoint execRecA.id :=
  load_checkpoint_never_saved NewSQLiteStore 3 4 "gen" execRecA (by decide) (by decide)

/-- C9: `UpdateExecution` on a record whose id has no stored row succeeds
(no error, no `NotFound`), inserts nothing, and leaves the store unchanged. -/
theorem update_execution_missing_id (s : SQLiteStore) (now : Nat)
    (e : ExecutionRecord) (habs : ∀ row ∈ s.executions, row.id ≠ e.id) :
    s.UpdateExecution now e = (s, .ok { e with updatedAt := now }) := by
  unfold SQLiteStore.UpdateExecution
  dsimp only
  have hid : ∀ row ∈ s.executions,
      (if row.id == ({ e with updatedAt := now } : ExecutionRecord).id then
        { row with state := ({ e with updatedAt := now } : ExecutionRecord).state,
                   data := { e with updatedAt := now }, updated_at := now }
      else row) = id row := by
    intro row hrow
    simp [habs row hrow]
  rw [List.map_congr_left hid, List.map_id]

/-- C9 witness: updating an absent id on the sample store changes nothing. -/
theorem update_execution_missing_id_wit :
    storeA.UpdateExecution 7 { execRecA with id := "ghost" } =
      (storeA, .ok { { execRecA with id := "ghost" } with updatedAt := 7 }) :=
  update_execution_missing_id storeA 7 { execRecA with id := "ghost" } (by decide)

/-- C10: `LoadCheckpoint` on an id with no execution row returns the same
absent result (`none`, no error) as a never-checkpointed execution, never a
`NotFound` error. -/
theorem load_checkpoint_missing_execution (s : SQLiteStore) (id : String)
    (habs : ∀ row ∈ s.executions, row.id ≠ id) :
    s.LoadCheckpoint id = .ok none ∧
    ∀ err : StoreError, s.LoadCheckpoint id ≠ .error err := by
  have hnone : (s.executions.find? fun row => row.id == id) = none := by
    rw [List.find?_eq_none]
    intro row hrow
    simp [habs row hrow]
  unfold SQLiteStore.LoadCheckpoint
  rw [hnone]
  exact ⟨rfl, fun err h => by cases h⟩

/-- C10 witness: the theorem at the sample store and an unknown id. -/
theorem load_checkpoint_missing_execution_wit :
    storeA.LoadCheckpoint "ghost" = .ok none ∧
    ∀ err : StoreError, storeA.LoadCheckpoint "ghost" ≠ .error err :=
  load_checkpoint_missing_execution storeA "ghost" (by decide)

/-! ## Resource catalog lemmas (sqlite.go lines 83–231) -/

/-- Field-by-field effect of the in-place mutations `Put` performs: key
fields and the spec payload are untouched; `uid`/`createdAt` are assigned
only when the incoming uid is empty; `updatedAt` and `status.lastUpdated`
are always re-stamped; an empty status is defaulted. -/
theorem stampPut_fields (now : Nat) (u : String) (r : GenericResource) :
    (stampPut now u r).kind = r.kind ∧
    (stampPut now u r).metadata.«namespace» = r.metadata.«namespace» ∧
    (stampPut now u r).metadata.name = r.metadata.name ∧
    (stampPut now u r).spec = r.spec ∧
    (stampPut now u r).metadata.uid = (if r.metadata.uid = "" then u else r.metadata.uid) ∧
    (stampPut now u r).metadata.createdAt =
      (if r.metadata.uid = "" then now else r.metadata.createdAt) ∧
    (stampPut now u r).metadata.updatedAt = now ∧
    (stampPut now u r).status.state =
      (if r.status.state = "" then "Registered" else r.status.state) ∧
    (stampPut now u r).status.health =
      (if r.status.state = "" then "Unknown" else r.status.health) ∧
    (stampPut now u r).status.lastUpdated = now := by
  unfold stampPut
  dsimp only
  by_cases h1 : r.metadata.uid = "" <;> by_cases h2 : r.status.state = "" <;>
    simp [h1, h2]

/-- The upsert's lookup invariant: after `upsertRow rs now r`, a `find?` at
`r`'s key sees a row whose `data` is exactly `r` (a fresh row, or the old
row with its `data` and `updated_at` columns overwritten). -/
theorem upsertRow_lookup (rs : List ResourceRow) (now : Nat) (r : GenericResource) :
    ((upsertRow rs now r).find? fun row =>
        row.hasKey r.kind r.metadata.«namespace» r.metadata.name).map ResourceRow.data
      = some r := by
  unfold upsertRow
  split
  next hconf =>
    have hrw := find?_map_ite
      (fun row : ResourceRow => row.hasKey r.kind r.metadata.«namespace» r.metadata.name)
      (fun row : ResourceRow => { row with data := r, updated_at := now })
      (fun _ => rfl) rs
    rw [hrw]
    have hsome : (rs.find? fun row =>
        row.hasKey r.kind r.metadata.«namespace» r.metadata.name).isSome := by
      rw [List.find?_isSome]
      obtain ⟨x, hx, hpx⟩ := List.any_eq_true.mp hconf
      exact ⟨x, hx, hpx⟩
    obtain ⟨row', hrow'⟩ := Option.isSome_iff_exists.mp hsome
    rw [hrow']
    rfl
  next hconf =>
    rw [List.find?_append]
    have hnone : (rs.find? fun row =>
        row.hasKey r.kind r.metadata.«namespace» r.metadata.name) = none := by
      rw [List.find?_eq_none]
      intro x hx
      have hfalse : (rs.any fun row =>
          row.hasKey r.kind r.metadata.«namespace» r.metadata.name) = false := by
        simpa using hconf
      simpa using List.any_eq_false.mp hfalse x hx
    rw [hnone]
    simp [List.find?_cons, ResourceRow.hasKey]

/-- `Get` immediately after `Put` at the written key returns exactly the
resource `Put` wrote (the input as mutated in place). -/
theorem Get_Put (s : SQLiteStore) (now : Nat) (u : String) (r : GenericResource) :
    (s.Put now u r).1.Get r.kind r.metadata.«namespace» r.metadata.name =
      .ok (s.Put now u r).2.1 := by
  obtain ⟨hk, hn, hm, _⟩ := stampPut_fields now u r
  unfold SQLiteStore.Put SQLiteStore.Get
  dsimp only
  rw [← hk, ← hn, ← hm]
  have hlook := upsertRow_lookup s.resources now (stampPut now u r)
  cases hf : (upsertRow s.resources now (stampPut now u r)).find? fun row =>
      row.hasKey (stampPut now u r).kind (stampPut now u r).metadata.«namespace»
        (stampPut now u r).metadata.name with
  | none => rw [hf] at hlook; simp at hlook
  | some row =>
    rw [hf] at hlook
    simp at hlook
    simp [hlook]

/-- A fresh resource (no uid yet) used to instantiate theorems. -/
def resFresh : GenericResource :=
  { kind := "Agent",
    metadata := { «namespace» := "ns", name := "a", uid := "", createdAt := 0, updatedAt := 0 },
    spec := "payload",
    status := { state := "Ready", health := "OK", lastUpdated := 0 } }

/-- The same resource as a caller re-`Put`s it, carrying forward the uid
`"u1"` assigned at first creation. -/
def resCarry : GenericResource :=
  { resFresh with metadata := { resFresh.metadata with uid := "u1", createdAt := 1 } }

/-- The same key written with a different, caller-fabricated uid. -/
def resHijack : GenericResource :=
  { resFresh with metadata := { resFresh.metadata with uid := "zzz", createdAt := 5 } }

/-- The uid a `Get` right after one `Put` observes: the fresh uid when the
incoming uid was empty, the caller's uid otherwise. -/
theorem uidAt_Put (s : SQLiteStore) (now : Nat) (u : String) (r : GenericResource) :
    uidAt (s.Put now u r).1 r.kind r.metadata.«namespace» r.metadata.name =
      some (if r.metadata.uid = "" then u else r.metadata.uid) := by
  unfold uidAt
  rw [Get_Put]
  obtain ⟨_, _, _, _, hu, _⟩ := stampPut_fields now u r
  have h21 : (s.Put now u r).2.1 = stampPut now u r := rfl
  simp [h21, hu]

/-- Along any sequence of `Put`s that all target one key and all carry the
uid `U`, every intermediate state's `Get` keeps observing uid `U`. -/
theorem putSeq_uid_inv (kind nsp name U : String) (hU : U ≠ "") :
    ∀ (pre : List (Nat × String × GenericResource)) (s : SQLiteStore),
      uidAt s kind nsp name = some U →
      (∀ x ∈ pre, (x.2.2).key = (kind, nsp, name) ∧ (x.2.2).metadata.uid = U) →
      uidAt (putSeq s pre) kind nsp name = some U
  | [], s, hs, _ => hs
  | (n, u, r) :: rest, s, hs, hall => by
    have hx := hall (n, u, r) (List.mem_cons_self _ _)
    obtain ⟨hkey, huid⟩ := hx
    unfold GenericResource.key at hkey
    obtain ⟨hk, hn, hm⟩ : r.kind = kind ∧ r.metadata.«namespace» = nsp ∧
        r.metadata.name = name := by
      refine ⟨congrArg Prod.fst hkey, ?_, ?_⟩
      · exact congrArg (fun p => p.2.1) hkey
      · exact congrArg (fun p => p.2.2) hkey
    have hstep : uidAt (s.Put n u r).1 kind nsp name = some U := by
      have h := uidAt_Put s n u r
      rw [hk, hn, hm, huid] at h
      simpa [hU] using h
    exact putSeq_uid_inv kind nsp name U hU rest (s.Put n u r).1 hstep
      (fun x hx' => hall x (List.mem_cons_of_mem _ hx'))

/-- C1 (amended): `Put` generates a uid only at first creation (incoming uid
empty); the store itself never regenerates a non-empty uid, so for any
sequence of `Put`s on one key whose first resource has no uid and whose
later resources carry forward the uid `U` assigned by that first `Put` (as a
caller that re-`Put`s what it read does), every `Get` after the first `Put`
observes `U`. -/
theorem put_uid_first_creation (s0 : SQLiteStore) (kind nsp name : String)
    (now1 : Nat) (U : String) (r1 : GenericResource)
    (puts : List (Nat × String × GenericResource))
    (hU : U ≠ "")
    (hkey1 : r1.key = (kind, nsp, name))
    (huid1 : r1.metadata.uid = "")
    (hrest : ∀ x ∈ puts, (x.2.2).key = (kind, nsp, name) ∧ (x.2.2).metadata.uid = U) :
    ∀ pre suf, puts = pre ++ suf →
      uidAt (putSeq (s0.Put now1 U r1).1 pre) kind nsp name = some U := by
  intro pre suf hsplit
  unfold GenericResource.key at hkey1
  obtain ⟨hk, hn, hm⟩ : r1.kind = kind ∧ r1.metadata.«namespace» = nsp ∧
      r1.metadata.name = name := by
    refine ⟨congrArg Prod.fst hkey1, ?_, ?_⟩
    · exact congrArg (fun p => p.2.1) hkey1
    · exact congrArg (fun p => p.2.2) hkey1
  have hbase : uidAt (s0.Put now1 U r1).1 kind nsp name = some U := by
    have h := uidAt_Put s0 now1 U r1
    rw [hk, hn, hm, huid1] at h
    simpa using h
  exact putSeq_uid_inv kind nsp name U hU pre (s0.Put now1 U r1).1 hbase
    (fun x hx => hrest x (hsplit ▸ List.mem_append_left suf hx))

/-- C1 (witness): first creation assigns `"u1"`; one further `Put` that
carries `"u1"` forward leaves `Get` observing `"u1"`. -/
theorem put_uid_first_creation_wit :
    uidAt (putSeq (NewSQLiteStore.Put 1 "u1" resFresh).1 [(2, "u2", resCarry)])
      "Agent" "ns" "a" = some "u1" :=
  put_uid_first_creation NewSQLiteStore "Agent" "ns" "a" 1 "u1" resFresh
    [(2, "u2", resCarry)] (by decide) (by decide) (by decide) (by decide)
    [(2, "u2", resCarry)] [] rfl

/-- C1 (counterexample): the first `Put` on key `Agent/ns/a` assigns uid
`"u1"`, but a second successful `Put` on the same key carrying the
caller-fabricated uid `"zzz"` makes the next `Get` observe `"zzz"`, not the
uid assigned at first creation — the stored uid is preserved only through
the caller's supplied value, not by the store. -/
theorem put_uid_first_creation_cex :
    (NewSQLiteStore.Put 1 "u1" resFresh).2.1.metadata.uid = "u1" ∧
    ((NewSQLiteStore.Put 1 "u1" resFresh).1.Put 2 "u2" resHijack).1.Get "Agent" "ns" "a" =
      .ok { kind := "Agent",
            metadata :=
              { «namespace» := "ns", name := "a", uid := "zzz", createdAt := 5,
                updatedAt := 2 },
            spec := "payload",
            status := { state := "Ready", health := "OK", lastUpdated := 2 } } ∧
    ("zzz" : String) ≠ "u1" := by
  decide

/-- C2 (amended): the event emitted by a successful `Put` has type `CREATED`
exactly when the incoming resource's uid is empty (the code's "treated as
new" test), and `UPDATED` otherwise; this coincides with "first-ever write
per key" only under the caller discipline of re-`Put`ting resources with
their stored uid. -/
theorem put_event_type_iff_new_uid (s : SQLiteStore) (now : Nat) (u : String)
    (r : GenericResource) :
    ((s.Put now u r).2.2.type = EventType.CREATED ↔ r.metadata.uid = "") ∧
    ((s.Put now u r).2.2.type = EventType.UPDATED ↔ r.metadata.uid ≠ "") := by
  unfold SQLiteStore.Put
  dsimp only
  by_cases h : r.metadata.uid = "" <;> simp [h]

/-- C2 (counterexample): a first-ever write for its key (the store is empty)
whose resource carries a non-empty uid emits `UPDATED`, not `CREATED`: the
event type keys on the incoming uid, not on whether the write is the
first-ever one for the key. -/
theorem put_event_type_cex :
    NewSQLiteStore.resources = [] ∧
    (NewSQLiteStore.Put 1 "u1" resHijack).2.2.type = EventType.UPDATED := by
  decide

/-- C3 (amended): `Get` after a successful `Put(R)` at `R`'s key returns the
written resource, which agrees with `R` on every field except the
server-assigned ones — `uid`/`createdAt` (assigned when the incoming uid is
empty), `updatedAt`, `status.lastUpdated` (re-stamped on every write) and
the defaulted status when `R.status.state` is empty — all deterministically
derivable from the write time and `R`. -/
theorem put_get_roundtrip_fields (s : SQLiteStore) (now : Nat) (u : String)
    (r : GenericResource) :
    (s.Put now u r).1.Get r.kind r.metadata.«namespace» r.metadata.name =
      .ok (s.Put now u r).2.1 ∧
    (s.Put now u r).2.1.kind = r.kind ∧
    (s.Put now u r).2.1.metadata.«namespace» = r.metadata.«namespace» ∧
    (s.Put now u r).2.1.metadata.name = r.metadata.name ∧
    (s.Put now u r).2.1.spec = r.spec ∧
    (s.Put now u r).2.1.metadata.uid = (if r.metadata.uid = "" then u else r.metadata.uid) ∧
    (s.Put now u r).2.1.metadata.createdAt =
      (if r.metadata.uid = "" then now else r.metadata.createdAt) ∧
    (s.Put now u r).2.1.metadata.updatedAt = now ∧
    (s.Put now u r).2.1.status.state =
      (if r.status.state = "" then "Registered" else r.status.state) ∧
    (s.Put now u r).2.1.status.health =
      (if r.status.state = "" then "Unknown" else r.status.health) ∧
    (s.Put now u r).2.1.status.lastUpdated = now := by
  obtain ⟨h1, h2, h3, h4, h5, h6, h7, h8, h9, h10⟩ := stampPut_fields now u r
  exact ⟨Get_Put s now u r, h1, h2, h3, h4, h5, h6, h7, h8, h9, h10⟩

/-- C3 (counterexample): a `Put` at time 9 of a resource whose
`status.lastUpdated` is 3 round-trips to a resource whose
`status.lastUpdated` is 9: the returned resource differs from the input in a
field outside the claim's excepted set `{uid, createdAt, updatedAt}` (here
`uid` and `createdAt` are unchanged). -/
theorem put_get_roundtrip_cex :
    (NewSQLiteStore.Put 9 "gen"
      { kind := "Agent",
        metadata :=
          { «namespace» := "ns", name := "a", uid := "u0", createdAt := 7, updatedAt := 7 },
        spec := "payload",
        status := { state := "Running", health := "OK", lastUpdated := 3 } }).1.Get
        "Agent" "ns" "a" =
      .ok { kind := "Agent",
            metadata :=
              { «namespace» := "ns", name := "a", uid := "u0", createdAt := 7,
                updatedAt := 9 },
            spec := "payload",
            status := { state := "Running", health := "OK", lastUpdated := 9 } } ∧
    (9 : Nat) ≠ 3 ∧ ("u0" : String) = "u0" ∧ (7 : Nat) = 7 := by
  decide

/-- A sample store holding one resource row at key `Agent/ns/a`. -/
def storeR : SQLiteStore :=
  { resources :=
      [{ kind := "Agent", «namespace» := "ns", name := "a", uid := "u1",
         data := resCarry, created_at := 1, updated_at := 1 }],
    executions := [], watchers := [] }

/-- C7: a successful `Delete(k)` makes the next `Get(k)` fail with
`NotFound`; `Delete` on a key with no stored resource fails with `NotFound`
and leaves the store — its rows and every watcher queue — unchanged, so no
event is emitted to any watcher. -/
theorem delete_then_get (s : SQLiteStore) (kind nsp name : String) :
    ((s.Delete kind nsp name).2 = .ok () →
      (s.Delete kind nsp name).1.Get kind nsp name = .error .notFound) ∧
    (s.Get kind nsp name = .error .notFound →
      s.Delete kind nsp name = (s, .error .notFound)) := by
  unfold SQLiteStore.Delete SQLiteStore.getUnlocked SQLiteStore.Get
  cases h : s.resources.find? fun row => row.hasKey kind nsp name with
  | some row =>
    simp only [h]
    constructor
    · intro _
      have hnone : (s.resources.filter fun row => ! row.hasKey kind nsp name).find?
          (fun row => row.hasKey kind nsp name) = none := by
        rw [List.find?_eq_none]
        intro x hx
        have hkept := (List.mem_filter.mp hx).2
        simp only [Bool.not_eq_true'] at hkept
        simp [hkept]
      simp [hnone]
    · intro hcontra
      cases hcontra
  | none =>
    simp [h]

/-- C7 witness: deleting the present key of `storeR` makes `Get` fail
`NotFound`; deleting an absent key on the empty store fails `NotFound` and
changes nothing. -/
theorem delete_then_get_wit :
    (storeR.Delete "Agent" "ns" "a").1.Get "Agent" "ns" "a" = .error .notFound ∧
    NewSQLiteStore.Delete "Agent" "ns" "a" = (NewSQLiteStore, .error .notFound) :=
  ⟨(delete_then_get storeR "Agent" "ns" "a").1 (by decide),
   (delete_then_get NewSQLiteStore "Agent" "ns" "a").2 (by decide)⟩

/-- A sample store with three executions in namespace `default`, created at
pairwise-distinct times 1 < 2 < 3. -/
def storeB : SQLiteStore :=
  { resources := [],
    executions :=
      [{ id := "e1", «namespace» := "default", agent_name := "summarizer",
         pipeline_name := "", state := "Pending", data := execRecA,
         checkpoint := none, created_at := 1, updated_at := 1 },
       { id := "e2", «namespace» := "default", agent_name := "summarizer",
         pipeline_name := "", state := "Pending",
         data := { execRecA with id := "e2" },
         checkpoint := none, created_at := 3, updated_at := 3 },
       { id := "e3", «namespace» := "default", agent_name := "summarizer",
         pipeline_name := "", state := "Pending",
         data := { execRecA with id := "e3" },
         checkpoint := none, created_at := 2, updated_at := 2 }],
    watchers := [] }

/-- C6: with pairwise-distinct creation times in namespace `nsp` (a real
namespace, not the empty no-filter sentinel), `ListExecutions(nsp, k)` with
`k > 0` returns exactly the `k` most recently created executions of that
namespace, newest first (every omitted row is older than every returned
row); with `k ≤ 0` it returns all of them, newest first. -/
theorem list_executions_topk (s : SQLiteStore) (nsp : String) (limit : Int)
    (hnsp : nsp ≠ "")
    (hdist : (s.executions.filter fun row => row.«namespace» == nsp).Pairwise
      fun a b => a.created_at ≠ b.created_at) :
    s.ListExecutions nsp limit = (s.listExecutionRows nsp limit).map (fun row => row.data) ∧
    (s.listExecutionRows nsp limit).Pairwise (fun a b => b.created_at < a.created_at) ∧
    ∃ rest : List ExecRow,
      (s.listExecutionRows nsp limit ++ rest).Perm
        (s.executions.filter fun row => row.«namespace» == nsp) ∧
      (∀ a ∈ s.listExecutionRows nsp limit, ∀ b ∈ rest, b.created_at < a.created_at) ∧
      (0 < limit → (s.listExecutionRows nsp limit).length =
        min limit.toNat (s.executions.filter fun row => row.«namespace» == nsp).length) ∧
      (limit ≤ 0 → rest = []) := by
  have hrows : s.listExecutionRows nsp limit =
      (if 0 < limit then
        (List.insertionSort execRowGE
          (s.executions.filter fun row => row.«namespace» == nsp)).take limit.toNat
       else
        List.insertionSort execRowGE
          (s.executions.filter fun row => row.«namespace» == nsp)) := by
    unfold SQLiteStore.listExecutionRows
    simp [hnsp]
  have hsort : (List.insertionSort execRowGE
      (s.executions.filter fun row => row.«namespace» == nsp)).Sorted execRowGE :=
    List.sorted_insertionSort execRowGE _
  have hperm : (List.insertionSort execRowGE
      (s.executions.filter fun row => row.«namespace» == nsp)).Perm
      (s.executions.filter fun row => row.«namespace» == nsp) :=
    List.perm_insertionSort execRowGE _
  have hne : (List.insertionSort execRowGE
      (s.executions.filter fun row => row.«namespace» == nsp)).Pairwise
      (fun a b => a.created_at ≠ b.created_at) :=
    (hperm.pairwise_iff (fun hxy => hxy.symm)).mpr hdist
  have hgt : (List.insertionSort execRowGE
      (s.executions.filter fun row => row.«namespace» == nsp)).Pairwise
      (fun a b => b.created_at < a.created_at) :=
    (List.Pairwise.and hsort hne).imp
      (fun h => lt_of_le_of_ne h.1 (fun e => h.2 e.symm))
  by_cases hlim : 0 < limit
  · have hl : s.listExecutionRows nsp limit =
        (List.insertionSort execRowGE
          (s.executions.filter fun row => row.«namespace» == nsp)).take limit.toNat := by
      rw [hrows, if_pos hlim]
    refine ⟨rfl, ?_,
      (List.insertionSort execRowGE
        (s.executions.filter fun row => row.«namespace» == nsp)).drop limit.toNat,
      ?_, ?_, ?_, ?_⟩
    · rw [hl]
      exact hgt.sublist (List.take_sublist _ _)
    · rw [hl, List.take_append_drop]
      exact hperm
    · intro a ha b hb
      rw [hl] at ha
      have hsplit := (List.take_append_drop limit.toNat
        (List.insertionSort execRowGE
          (s.executions.filter fun row => row.«namespace» == nsp))).symm ▸ hgt
      exact (List.pairwise_append.mp hsplit).2.2 a ha b hb
    · intro _
      rw [hl, List.length_take, hperm.length_eq]
    · intro hle
      omega
  · have hl : s.listExecutionRows nsp limit =
        List.insertionSort execRowGE
          (s.executions.filter fun row => row.«namespace» == nsp) := by
      rw [hrows, if_neg hlim]
    refine ⟨rfl, by rw [hl]; exact hgt, [], ?_, ?_, ?_, fun _ => rfl⟩
    · rw [hl, List.append_nil]
      exact hperm
    · intro a _ b hb
      exact absurd hb (List.not_mem_nil b)
    · intro hpos
      exact absurd hpos hlim

/-- C6 witness: the theorem on `storeB` (creation times 1, 3, 2) with
namespace `default` and limit 2. -/
theorem list_executions_topk_wit :
    storeB.ListExecutions "default" 2 =
      (storeB.listExecutionRows "default" 2).map (fun row => row.data) ∧
    (storeB.listExecutionRows "default" 2).Pairwise
      (fun a b => b.created_at < a.created_at) ∧
    ∃ rest : List ExecRow,
      (storeB.listExecutionRows "default" 2 ++ rest).Perm
        (storeB.executions.filter fun row => row.«namespace» == "default") ∧
      (∀ a ∈ storeB.listExecutionRows "default" 2, ∀ b ∈ rest,
        b.created_at < a.created_at) ∧
      (0 < (2 : Int) → (storeB.listExecutionRows "default" 2).length =
        min (2 : Int).toNat
          (storeB.executions.filter fun row => row.«namespace» == "default").length) ∧
      ((2 : Int) ≤ 0 → rest = []) :=
  list_executions_topk storeB "default" 2 (by decide) (by decide)

/-- How one publish relates a subscriber's queue before and after: the queue
stays within its capacity; a subscriber of the published kind with room gets
the event appended; a subscriber of the published kind with a full queue is
left untouched (the event is dropped for it alone); a subscriber of another
kind is left untouched. -/
def SubsRel (kind : String) (event : ResourceEvent) (sub sub' : Subscriber) : Prop :=
  (sub.queue.length ≤ sub.cap → sub'.queue.length ≤ sub.cap) ∧
  (sub.kind = kind → sub.queue.length < sub.cap →
    sub' = { sub with queue := sub.queue ++ [event] }) ∧
  (sub.kind = kind → ¬ sub.queue.length < sub.cap → sub' = sub) ∧
  (sub.kind ≠ kind → sub' = sub)

/-- One non-blocking send realizes `SubsRel`. -/
theorem subsRel_emitOne (kind : String) (event : ResourceEvent) (sub : Subscriber) :
    SubsRel kind event sub (emitOne kind event sub) := by
  unfold SubsRel emitOne
  by_cases hk : sub.kind = kind <;> by_cases hq : sub.queue.length < sub.cap <;>
    (simp [hk, hq]; try omega)

/-- A publish relates every subscriber to its updated self, positionally:
each output queue depends only on that same subscriber's input queue. -/
theorem forall₂_emit (W : List Subscriber) (kind : String) (event : ResourceEvent) :
    List.Forall₂ (SubsRel kind event) W (emit W kind event) := by
  induction W with
  | nil => exact List.Forall₂.nil
  | cons sub W ih => exact List.Forall₂.cons (subsRel_emitOne kind event sub) ih

/-- C8: `Watch` registers a fresh empty queue of capacity 100; a `Put`
publishes to exactly its kind's subscribers by non-blocking enqueue —
per subscriber, positionally: append when registered for the kind with
room, silently drop when full, untouched otherwise — and the outcome of the
originating `Put` or `Delete` (rows written and value returned) is the same
whatever the subscriber queues hold. -/
theorem watch_bus_drop_policy (s : SQLiteStore) (now : Nat) (u : String)
    (r : GenericResource) (k kd nsp nm : String) (W : List Subscriber) :
    (s.Watch k).1.watchers = s.watchers ++ [{ kind := k, cap := 100, queue := [] }] ∧
    List.Forall₂ (SubsRel r.kind (s.Put now u r).2.2)
      s.watchers (s.Put now u r).1.watchers ∧
    (({ s with watchers := W } : SQLiteStore).Put now u r).1.resources =
      (s.Put now u r).1.resources ∧
    (({ s with watchers := W } : SQLiteStore).Put now u r).2 = (s.Put now u r).2 ∧
    (({ s with watchers := W } : SQLiteStore).Delete kd nsp nm).1.resources =
      (s.Delete kd nsp nm).1.resources ∧
    (({ s with watchers := W } : SQLiteStore).Delete kd nsp nm).2 =
      (s.Delete kd nsp nm).2 := by
  refine ⟨rfl, ?_, rfl, rfl, ?_, ?_⟩
  · have hk : (stampPut now u r).kind = r.kind := (stampPut_fields now u r).1
    have hw : (s.Put now u r).1.watchers =
        emit s.watchers (stampPut now u r).kind (s.Put now u r).2.2 := rfl
    rw [hw, hk]
    exact forall₂_emit s.watchers r.kind (s.Put now u r).2.2
  · unfold SQLiteStore.Delete SQLiteStore.getUnlocked
    cases h : s.resources.find? fun row => row.hasKey kd nsp nm <;> simp [h]
  · unfold SQLiteStore.Delete SQLiteStore.getUnlocked
    cases h : s.resources.find? fun row => row.hasKey kd nsp nm <;> simp [h]

end Pipe
